import Mathlib

/-!
Verification of the citeproc-rs core against its natural-language
specification.  The Rust sources are shallowly embedded: Rust enums become
inductives, structs become structures, hash maps become functions into
`Option`, strings become `List Char`, and functions that can panic return
`Option`.  Components of the repository that are referenced but whose
sources are not available (the `csl` crate's enums, the `Natural` plain-text
comparator, the `OrderedDate`/EDTF comparator) are modelled from the
specification and are marked as such in their doc comments.
-/

namespace Citeproc

/-! ### Ordering helpers

Rust's `Ord for u32` / `Ord for i32` produce a total comparison; we embed
them explicitly so that their symmetry properties are provable. -/

/-- Total comparison on `Nat`, embedding Rust's `u32::cmp`. -/
def natCmp (a b : Nat) : Ordering :=
  if a < b then .lt else if b < a then .gt else .eq

/-- Total comparison on `Int`, embedding Rust's `i32::cmp`. -/
def intCmp (a b : Int) : Ordering :=
  if a < b then .lt else if b < a then .gt else .eq

theorem natCmp_swap (a b : Nat) : natCmp b a = (natCmp a b).swap := by
  unfold natCmp
  split <;> split <;> simp_all [Ordering.swap] <;> omega

theorem intCmp_swap (a b : Int) : intCmp b a = (intCmp a b).swap := by
  unfold intCmp
  split <;> split <;> simp_all [Ordering.swap] <;> omega

theorem ordering_then_swap (x y : Ordering) :
    (x.then y).swap = x.swap.then y.swap := by
  cases x <;> cases y <;> rfl

/-! ### Group suppression state (src/citeproc/src/proc/group.rs)

The tri-state summary carried while building IR over a `<group>` subtree. -/

/-- Embeds the Rust enum `GroupVars` from `src/citeproc/src/proc/group.rs`. -/
inductive GroupVars
  /-- A group has only seen stuff like `<text value=""/>` so far. -/
  | NoneSeen
  /-- Renderer encountered >= 1 variables, but did not render any of them. -/
  | OnlyEmpty
  /-- Renderer encountered >= 1 variables that it did render. -/
  | DidRender
  deriving DecidableEq, Repr

namespace GroupVars

/-- Embeds `GroupVars::new`. -/
def new : GroupVars := NoneSeen

/-- Embeds `GroupVars::rendered_if`. -/
def rendered_if (b : Bool) : GroupVars :=
  if b then DidRender else OnlyEmpty

/-- Embeds `GroupVars::did_not_render`. -/
def did_not_render : GroupVars → GroupVars
  | DidRender => DidRender
  | _ => OnlyEmpty

/-- Embeds `GroupVars::with_subtree`. -/
def with_subtree (self subtree : GroupVars) : GroupVars :=
  match subtree with
  | NoneSeen => self
  | OnlyEmpty => self.did_not_render
  | DidRender => DidRender

/-- Embeds `GroupVars::neighbour`. -/
def neighbour (self other : GroupVars) : GroupVars :=
  match self, other with
  | DidRender, _ => DidRender
  | _, DidRender => DidRender
  | OnlyEmpty, _ => OnlyEmpty
  | _, OnlyEmpty => OnlyEmpty
  | _, _ => NoneSeen

/-- Embeds `GroupVars::should_render_tree`, i.e. `self != OnlyEmpty`. -/
def should_render_tree (self : GroupVars) : Bool :=
  self ≠ OnlyEmpty

end GroupVars

/-- C3: neighbour combination of group-vars is `DidRender` if either argument
is `DidRender`, else `OnlyEmpty` if either argument is `OnlyEmpty`, else
`NoneSeen`; and a subtree renders iff the summary is not `OnlyEmpty`. -/
theorem groupvars_neighbour_and_render_spec :
    (∀ a b : GroupVars,
      a.neighbour b =
        if a = .DidRender ∨ b = .DidRender then .DidRender
        else if a = .OnlyEmpty ∨ b = .OnlyEmpty then .OnlyEmpty
        else .NoneSeen) ∧
    (∀ g : GroupVars, g.should_render_tree = true ↔ g ≠ .OnlyEmpty) := by
  constructor
  · intro a b; cases a <;> cases b <;> rfl
  · intro g; cases g <;> simp [GroupVars.should_render_tree]

/-- C4: `with_subtree` leaves the parent unchanged on a `NoneSeen` child,
applies `did_not_render` (DidRender fixed, both other states to OnlyEmpty)
on an `OnlyEmpty` child, and promotes to `DidRender` on a `DidRender`
child. -/
theorem groupvars_with_subtree_spec :
    (∀ p : GroupVars, p.with_subtree .NoneSeen = p) ∧
    (∀ p : GroupVars, p.with_subtree .OnlyEmpty = p.did_not_render) ∧
    (GroupVars.DidRender.did_not_render = .DidRender ∧
     GroupVars.NoneSeen.did_not_render = .OnlyEmpty ∧
     GroupVars.OnlyEmpty.did_not_render = .OnlyEmpty) ∧
    (∀ p : GroupVars, p.with_subtree .DidRender = .DidRender) := by
  refine ⟨?_, ?_, ⟨rfl, rfl, rfl⟩, ?_⟩ <;> intro p <;> cases p <;> rfl

/-! ### Natural sort (src/crates/proc/src/sort/natural_sort.rs)

Strings are embedded as `List Char`.  The nom parsers of the source are
embedded as functions `List Char → Option (result × List Char)` returning
the parsed value and the remaining input. -/

/-- Delimiter `DATE_START`, `U+E000`. -/
def DATE_START : Char := '\uE000'

/-- Delimiter `DATE_END`, `U+E001`. -/
def DATE_END : Char := '\uE001'

/-- Delimiter `NUM_START`, `U+E002`. -/
def NUM_START : Char := '\uE002'

/-- Delimiter `NUM_END`, `U+E003`. -/
def NUM_END : Char := '\uE003'

/-- Delimiter `CITATION_NUM_START`, `U+E004`. -/
def CITATION_NUM_START : Char := '\uE004'

/-- Delimiter `CITATION_NUM_END`, `U+E005`. -/
def CITATION_NUM_END : Char := '\uE005'

/-- Modelled from the spec: the comparison key of an EDTF date, from the
`citeproc_io` crate which is not among the provided sources.  Per §4.6 of
the spec, a date compares by (year, month, day) with missing parts as
zeros and BC years as negative numbers. -/
structure CmpEdtfDate where
  year : Int
  month : Nat
  day : Nat
  deriving DecidableEq, Repr

/-- Modelled from the spec: an EDTF date or range (`Edtf` in `citeproc_io`).
Per §4.6, ranges compare by start then end; a single date has no end
component. `stop` stands for the range's end (`end` is a Lean keyword). -/
structure CmpEdtf where
  start : CmpEdtfDate
  stop : Option CmpEdtfDate
  deriving DecidableEq, Repr

/-- Folds a list of ASCII digits into the number they denote. -/
def digitsToNat (l : List Char) : Nat :=
  l.foldl (fun a c => a * 10 + (c.toNat - '0'.toNat)) 0

/-- Parses exactly `n` ASCII digits from the front of the input. -/
def parseExactDigits (n : Nat) (s : List Char) : Option (Nat × List Char) :=
  let pre := s.take n
  if pre.length = n ∧ pre.all Char.isDigit then
    some (digitsToNat pre, s.drop n)
  else none

/-- Modelled from the spec: parses one EDTF date `[-]YYYY[-MM[-DD]]`
(missing parts become zero, a leading minus makes the year negative). -/
def parseEdtfDate (s : List Char) : Option (CmpEdtfDate × List Char) :=
  let signed : Bool × List Char :=
    match s with
    | '-' :: rest => (true, rest)
    | _ => (false, s)
  match parseExactDigits 4 signed.2 with
  | none => none
  | some (y, s2) =>
    let year : Int := if signed.1 then -(y : Int) else (y : Int)
    match s2 with
    | '-' :: s3 =>
      match parseExactDigits 2 s3 with
      | none => none
      | some (m, s4) =>
        match s4 with
        | '-' :: s5 =>
          match parseExactDigits 2 s5 with
          | none => none
          | some (d, s6) => some ({ year := year, month := m, day := d }, s6)
        | _ => some ({ year := year, month := m, day := 0 }, s4)
    | _ => some ({ year := year, month := 0, day := 0 }, s2)

/-- Modelled from the spec: `Edtf::parse` on the text between the date
delimiters; a date or a `/`-separated range, consuming the whole input. -/
def edtf_parse (s : List Char) : Option CmpEdtf :=
  match parseEdtfDate s with
  | none => none
  | some (d1, rest) =>
    match rest with
    | [] => some { start := d1, stop := none }
    | '/' :: r2 =>
      match parseEdtfDate r2 with
      | some (d2, []) => some { start := d1, stop := some d2 }
      | _ => none
    | _ => none

/-- Embeds `OrderedDate` from `citeproc_io` (sources not provided): either a
parsed EDTF value or the literal text between the date delimiters. -/
inductive OrderedDate
  | Edtf (e : CmpEdtf)
  | Literal (s : List Char)
  deriving DecidableEq, Repr

/-- Compares two EDTF dates by (year, month, day). -/
def cmpEdtfDate (a b : CmpEdtfDate) : Ordering :=
  (intCmp a.year b.year).then ((natCmp a.month b.month).then (natCmp a.day b.day))

/-- Compares optional range ends: a single date precedes any range sharing
its start date. -/
def optCmpDate : Option CmpEdtfDate → Option CmpEdtfDate → Ordering
  | none, none => .eq
  | none, some _ => .lt
  | some _, none => .gt
  | some a, some b => cmpEdtfDate a b

/-- Compares EDTF dates or ranges by start then end. -/
def cmpEdtf (a b : CmpEdtf) : Ordering :=
  (cmpEdtfDate a.start b.start).then (optCmpDate a.stop b.stop)

/-- Lexicographic comparison of character lists by code point. -/
def lexCmp : List Char → List Char → Ordering
  | [], [] => .eq
  | [], _ :: _ => .lt
  | _ :: _, [] => .gt
  | a :: ta, b :: tb => (natCmp a.toNat b.toNat).then (lexCmp ta tb)

/-- Modelled from the spec: comparison of `OrderedDate` values.  Parsed
EDTF values compare structurally; a literal (the rare unparseable case,
which the source handles by writing a comparison EDTF into a string)
is modelled as comparing lexicographically with other literals and after
any parsed date. -/
def odCmp : OrderedDate → OrderedDate → Ordering
  | .Edtf a, .Edtf b => cmpEdtf a b
  | .Literal a, .Literal b => lexCmp a b
  | .Edtf _, .Literal _ => .lt
  | .Literal _, .Edtf _ => .gt

/-- Modelled from the spec: the `Natural` plain-text comparator (from the
sort module, sources not provided): case-insensitive primary comparison
with a case-sensitive tie-break in which uppercase sorts first (which code
point order already gives). -/
def naturalStrCmp (a b : List Char) : Ordering :=
  (lexCmp (a.map Char.toLower) (b.map Char.toLower)).then (lexCmp a b)

/-- Embeds the `Token` enum of `natural_sort.rs`. -/
inductive Token
  | Str (s : List Char)
  | Num (n : Nat)
  | CitationNumber (n : Nat)
  | Date (d : OrderedDate)
  deriving DecidableEq, Repr

/-- Embeds `Token::partial_cmp`: same-kind tokens compare with their typed
semantics; citation numbers and mixed kinds are not comparable. -/
def tokenCmp : Token → Token → Option Ordering
  | .Str a, .Str b => some (naturalStrCmp a b)
  | .Date a, .Date b => some (odCmp a b)
  | .Num a, .Num b => some (natCmp a b)
  | .CitationNumber _, .CitationNumber _ => none
  | _, _ => none

/-- Embeds the `normal` predicate inside `str_token`. -/
def normalChar (c : Char) : Bool :=
  ¬(c = DATE_START ∨ c = NUM_START ∨ c = CITATION_NUM_START)

/-- Embeds `str_token`: `take_while1` of normal characters. -/
def str_token (s : List Char) : Option (Token × List Char) :=
  let run := s.takeWhile normalChar
  if run.isEmpty then none else some (.Str run, s.drop run.length)

/-- Embeds `take_8_digits`: `take_while_m_n(1, 8)` of ASCII digits. -/
def take_8_digits (s : List Char) : Option (List Char × List Char) :=
  let run := (s.takeWhile Char.isDigit).take 8
  if run.isEmpty then none else some (run, s.drop run.length)

/-- Embeds the `citation_number` parser: `U+E004`, 1–8 digits, `U+E005`. -/
def citation_number (s : List Char) : Option (Token × List Char) :=
  match s with
  | [] => none
  | c :: rest =>
    if c = CITATION_NUM_START then
      match take_8_digits rest with
      | none => none
      | some (digits, r2) =>
        match r2 with
        | [] => none
        | e :: r3 =>
          if e = CITATION_NUM_END then
            some (.CitationNumber (digitsToNat digits), r3)
          else none
    else none

/-- Embeds the `num` parser: `U+E002`, 1–8 digits, `U+E003`. -/
def num (s : List Char) : Option (Token × List Char) :=
  match s with
  | [] => none
  | c :: rest =>
    if c = NUM_START then
      match take_8_digits rest with
      | none => none
      | some (digits, r2) =>
        match r2 with
        | [] => none
        | e :: r3 =>
          if e = NUM_END then some (.Num (digitsToNat digits), r3) else none
    else none

/-- Embeds the `range` parser: `U+E000`, `take_until` the `U+E001`
delimiter, then the delimiter; the inside is parsed as EDTF, falling back
to a literal. -/
def range (s : List Char) : Option (Token × List Char) :=
  match s with
  | [] => none
  | c :: rest =>
    if c = DATE_START then
      let internal := rest.takeWhile (fun x => x ≠ DATE_END)
      match rest.drop internal.length with
      | [] => none
      | _ :: r3 =>
        let parsed :=
          match edtf_parse internal with
          | some e => OrderedDate.Edtf e
          | none => OrderedDate.Literal internal
        some (.Date parsed, r3)
    else none

/-- Embeds the `token` parser: `alt((str_token, citation_number, num,
range))`. -/
def token (s : List Char) : Option (Token × List Char) :=
  match str_token s with
  | some r => some r
  | none =>
    match citation_number s with
    | some r => some r
    | none =>
      match num s with
      | some r => some r
      | none => range s

/-- Runs the token parser repeatedly, embedding `TokenIterator`; the fuel
argument bounds recursion (each token consumes at least one character, so
`s.length` fuel is enough). -/
def tokenizeAux : Nat → List Char → List Token
  | 0, _ => []
  | fuel + 1, s =>
    if s.isEmpty then []
    else
      match token s with
      | some (t, rest) => t :: tokenizeAux fuel rest
      | none => []

/-- Collects all tokens of a sort key, embedding `TokenIterator`. -/
def tokenize (s : List Char) : List Token :=
  tokenizeAux s.length s

/-- Embeds the comparison loop of `natural_cmp`: walk the zipped token
streams carrying the last comparable result; return it at the first
position after it became non-equal, or at the end. -/
def cmpZipped : List (Token × Token) → Ordering → Ordering
  | [], o => o
  | (a, b) :: rest, o =>
    if o ≠ .eq then o
    else
      match tokenCmp a b with
      | some c => cmpZipped rest c
      | none => cmpZipped rest o

/-- Embeds `natural_cmp` from `natural_sort.rs`. -/
def natural_cmp (a b : List Char) : Ordering :=
  cmpZipped ((tokenize a).zip (tokenize b)) .eq

/-- Embeds `NaturalCmp::new`: only non-empty sort keys are comparable. -/
def naturalCmpNew (s : List Char) : Option (List Char) :=
  if s.isEmpty then none else some s

/-! ### Symmetry of the natural comparison -/

theorem lexCmp_swap : ∀ a b : List Char, lexCmp b a = (lexCmp a b).swap
  | [], [] => rfl
  | [], _ :: _ => rfl
  | _ :: _, [] => rfl
  | a :: ta, b :: tb => by
    show (natCmp b.toNat a.toNat).then (lexCmp tb ta) = _
    rw [natCmp_swap a.toNat b.toNat, lexCmp_swap ta tb]
    show _ = ((natCmp a.toNat b.toNat).then (lexCmp ta tb)).swap
    rw [ordering_then_swap]

theorem naturalStrCmp_swap (a b : List Char) :
    naturalStrCmp b a = (naturalStrCmp a b).swap := by
  unfold naturalStrCmp
  rw [lexCmp_swap (a.map Char.toLower) (b.map Char.toLower), lexCmp_swap a b,
    ordering_then_swap]

theorem cmpEdtfDate_swap (a b : CmpEdtfDate) :
    cmpEdtfDate b a = (cmpEdtfDate a b).swap := by
  unfold cmpEdtfDate
  rw [intCmp_swap a.year b.year, natCmp_swap a.month b.month,
    natCmp_swap a.day b.day, ordering_then_swap, ordering_then_swap]

theorem optCmpDate_swap : ∀ a b : Option CmpEdtfDate,
    optCmpDate b a = (optCmpDate a b).swap
  | none, none => rfl
  | none, some _ => rfl
  | some _, none => rfl
  | some x, some y => cmpEdtfDate_swap x y

theorem cmpEdtf_swap (a b : CmpEdtf) : cmpEdtf b a = (cmpEdtf a b).swap := by
  unfold cmpEdtf
  rw [cmpEdtfDate_swap a.start b.start, optCmpDate_swap a.stop b.stop,
    ordering_then_swap]

theorem odCmp_swap : ∀ a b : OrderedDate, odCmp b a = (odCmp a b).swap
  | .Edtf x, .Edtf y => cmpEdtf_swap x y
  | .Literal x, .Literal y => lexCmp_swap x y
  | .Edtf _, .Literal _ => rfl
  | .Literal _, .Edtf _ => rfl

theorem tokenCmp_swap : ∀ a b : Token,
    tokenCmp b a = (tokenCmp a b).map Ordering.swap
  | .Str x, .Str y => by
    show some (naturalStrCmp y x) = (some (naturalStrCmp x y)).map Ordering.swap
    rw [naturalStrCmp_swap x y]; rfl
  | .Num x, .Num y => by
    show some (natCmp y x) = (some (natCmp x y)).map Ordering.swap
    rw [natCmp_swap x y]; rfl
  | .Date x, .Date y => by
    show some (odCmp y x) = (some (odCmp x y)).map Ordering.swap
    rw [odCmp_swap x y]; rfl
  | .CitationNumber _, .CitationNumber _ => rfl
  | .Str _, .Num _ => rfl
  | .Str _, .CitationNumber _ => rfl
  | .Str _, .Date _ => rfl
  | .Num _, .Str _ => rfl
  | .Num _, .CitationNumber _ => rfl
  | .Num _, .Date _ => rfl
  | .CitationNumber _, .Str _ => rfl
  | .CitationNumber _, .Num _ => rfl
  | .CitationNumber _, .Date _ => rfl
  | .Date _, .Str _ => rfl
  | .Date _, .Num _ => rfl
  | .Date _, .CitationNumber _ => rfl

theorem cmpZipped_swap : ∀ (ps : List (Token × Token)) (o : Ordering),
    cmpZipped (ps.map Prod.swap) o.swap = (cmpZipped ps o).swap
  | [], _ => rfl
  | (a, b) :: rest, o => by
    cases o with
    | lt => rfl
    | gt => rfl
    | eq =>
      show (match tokenCmp b a with
            | some c => cmpZipped (rest.map Prod.swap) c
            | none => cmpZipped (rest.map Prod.swap) Ordering.eq) =
           (match tokenCmp a b with
            | some c => cmpZipped rest c
            | none => cmpZipped rest Ordering.eq).swap
      rw [tokenCmp_swap a b]
      cases tokenCmp a b with
      | some c => exact cmpZipped_swap rest c
      | none => exact cmpZipped_swap rest .eq

/-- Antisymmetry of `natural_cmp`: comparing in the opposite direction
always yields the opposite result. -/
theorem natural_cmp_swap (a b : List Char) :
    natural_cmp b a = (natural_cmp a b).swap := by
  unfold natural_cmp
  rw [← List.zip_swap (tokenize a) (tokenize b)]
  exact cmpZipped_swap _ .eq

/-- Sort key holding the single number token `1`. -/
def keyNumOne : List Char := ['', '1', '']

/-- Sort key holding the single number token `2`. -/
def keyNumTwo : List Char := ['', '2', '']

/-- Sort key holding the single date token `2000`. -/
def keyDate2000 : List Char := ['', '2', '0', '0', '0', '']

/-- C1: counterexample.  `natural_cmp` is not transitive on non-empty sort
keys: a number key and a date key are incomparable at their only position
and therefore compare `Equal`, yet the two number keys compare `Less`, so
the claimed total order fails on mixed token types. -/
theorem natural_cmp_not_transitive :
    ¬ (∀ a b c : List Char, a ≠ [] → b ≠ [] → c ≠ [] →
        natural_cmp a b = .eq → natural_cmp b c = .eq → natural_cmp a c = .eq) := by
  intro h
  have heq := h keyNumOne keyDate2000 keyNumTwo (by decide) (by decide)
    (by decide) (by decide) (by decide)
  exact absurd heq (by decide)

/-- C1 (amended): on non-empty sort-key strings, `natural_cmp` is total
(it always yields `Less`, `Equal` or `Greater`) and antisymmetric in the
direction-reversal sense (swapping the arguments swaps the result, so both
directions are `Equal` together); transitivity, however, fails on mixed
token types, so the comparison is not a total order. -/
theorem natural_cmp_total_and_antisymmetric (a b : List Char)
    (ha : a ≠ []) (hb : b ≠ []) :
    (natural_cmp a b = .lt ∨ natural_cmp a b = .eq ∨ natural_cmp a b = .gt) ∧
    natural_cmp b a = (natural_cmp a b).swap := by
  refine ⟨?_, natural_cmp_swap a b⟩
  cases natural_cmp a b
  · exact Or.inl rfl
  · exact Or.inr (Or.inl rfl)
  · exact Or.inr (Or.inr rfl)

/-- Witness for the amended C1 theorem at the concrete keys `"a"` and
`"b"`. -/
theorem natural_cmp_total_and_antisymmetric_witness :
    (['a'] : List Char) ≠ [] ∧ (['b'] : List Char) ≠ [] ∧
    ((natural_cmp ['a'] ['b'] = .lt ∨ natural_cmp ['a'] ['b'] = .eq ∨
      natural_cmp ['a'] ['b'] = .gt) ∧
     natural_cmp ['b'] ['a'] = (natural_cmp ['a'] ['b']).swap) :=
  ⟨by decide, by decide,
    natural_cmp_total_and_antisymmetric ['a'] ['b'] (by decide) (by decide)⟩

/-- C5: date sort keys compare as the spec requires: less-specific dates
precede more-specific ones sharing a prefix (`2000 < 2000-04 <
2000-04-01`), negative years invert naturally (`-0100 < -0044 < 0050 <
0100`), and a single date precedes a range with the same start
(`2009-04-07 < 2009-04-07/2010-05-09`). -/
theorem natural_cmp_date_ordering :
    natural_cmp "a2000".data "a2000-04".data = .lt ∧
    natural_cmp "a2000-04".data "a2000-04-01".data = .lt ∧
    natural_cmp "-0100".data "-0044".data = .lt ∧
    natural_cmp "-0044".data "0050".data = .lt ∧
    natural_cmp "0050".data "0100".data = .lt ∧
    natural_cmp "2009-04-07".data
      "2009-04-07/2010-05-09".data = .lt := by
  decide

/-! ### Variables (src/citeproc/src/style/variables.rs) -/

/-- Embeds the `Variable` enum of ordinary (text) variables. -/
inductive Variable
  | Abstract | Annote | Archive | ArchiveLocation | ArchivePlace | Authority
  | CallNumber | CitationLabel | CitationNumber | CollectionTitle
  | ContainerTitle | ContainerTitleShort | Dimensions | DOI | Event
  | EventPlace | FirstReferenceNoteNumber | Genre | ISBN | ISSN
  | Jurisdiction | Keyword | Locator | Medium | Note | OriginalPublisher
  | OriginalPublisherPlace | OriginalTitle | Page | PageFirst | PMCID | PMID
  | Publisher | PublisherPlace | References | ReviewedTitle | Scale | Section
  | Source | Status | Title | TitleShort | URL | Version | YearSuffix
  | Hereinafter | AvailableDate | Dummy | LocatorExtra | VolumeTitle
  deriving DecidableEq, Repr

/-- Embeds the `NumberVariable` enum.  The copy in
`src/citeproc/src/style/variables.rs` lacks the two virtual variables
`FirstReferenceNoteNumber` and `CitationNumber`, but the `csl` crate's copy
consumed by `ref_context.rs` has them: its `has_variable` matches both by
name. -/
inductive NumberVariable
  | ChapterNumber | CollectionNumber | Edition | Issue | Number
  | NumberOfPages | NumberOfVolumes | Volume | Locator | Page | PageFirst
  | PublicationNumber | Supplement | Authority
  | FirstReferenceNoteNumber | CitationNumber
  deriving DecidableEq, Repr

/-- Embeds the `NameVariable` enum. -/
inductive NameVariable
  | Author | CollectionEditor | Composer | ContainerAuthor | Director
  | Editor | EditorialDirector | Illustrator | Interviewer | OriginalAuthor
  | Recipient | ReviewedAuthor | Translator
  deriving DecidableEq, Repr

/-- Embeds the `DateVariable` enum. -/
inductive DateVariable
  | Accessed | Container | EventDate | Issued | OriginalDate | Submitted
  | LocatorDate | PublicationDate
  deriving DecidableEq, Repr

/-- Embeds `AnyVariable` from the `csl` crate: the four variable kinds. -/
inductive AnyVariable
  | Ordinary (v : Variable)
  | Number (v : NumberVariable)
  | Name (v : NameVariable)
  | Date (v : DateVariable)
  deriving DecidableEq, Repr

/-- Modelled from the spec: `VariableForm` of the `csl` crate (sources not
provided); §4.1 speaks of resolving the `short` form, the other form being
the default long one. -/
inductive VariableForm
  | Long
  | Short
  deriving DecidableEq, Repr

/-- Modelled from the spec: a locator type tag (`csl::terms::LocatorType`,
sources not provided).  Only its presence inside an `Option` matters to the
claims, so a single constructor suffices. -/
inductive LocatorType
  | locator_type
  deriving DecidableEq, Repr

/-- Modelled from the spec: cite positions (`csl::style::Position`, sources
not provided), as enumerated in §4.5. -/
inductive Position
  | First | Ibid | IbidWithLocator | Subsequent | NearNote | FarNote
  deriving DecidableEq, Repr

/-- Modelled from the spec: `Position::matches(Position::Subsequent)`.  Per
§4.5 every position other than `First` refines `Subsequent` (ibid and
near/far-note cites are repeat citations), so they all match it. -/
def Position.matchesSubsequent : Position → Bool
  | .First => false
  | _ => true

/-! ### Reference and reference context
(src/crates/citeproc-proc/src/disamb/ref_context.rs) -/

/-- Embeds the `Reference` record (§3 of the spec): four sub-maps keyed by
variable name, each embedded as a function into `Option`.  The payloads of
the name and date maps never influence the claims, so they are `Unit`;
number values keep their textual content. -/
structure Reference where
  ordinary : Variable → Option (List Char)
  number : NumberVariable → Option (List Char)
  name : NameVariable → Option Unit
  date : DateVariable → Option Unit

/-- Embeds the part of `csl::style::Style` the reference context consults:
whether the style has a bibliography section. -/
structure StyleModel where
  bibliography : Option Unit

/-- Embeds `RefContext`.  The output format and locale fields are omitted:
no function settled here reads them. -/
structure RefContext where
  style : StyleModel
  reference : Reference
  locator_type : Option LocatorType
  position : Position
  year_suffix : Bool

namespace RefContext

/-- Embeds `RefContext::get_ordinary`: only `(Title, Short)` is redirected
to the `TitleShort` entry; everything else reads the variable's own
entry. -/
def get_ordinary (self : RefContext) (var : Variable) (form : VariableForm) :
    Option (List Char) :=
  match var, form with
  | .Title, .Short => self.reference.ordinary .TitleShort
  | _, _ => self.reference.ordinary var

/-- Embeds `RefContext::get_number`. -/
def get_number (self : RefContext) (var : NumberVariable) :
    Option (List Char) :=
  self.reference.number var

/-- Embeds `RefContext::has_variable`.  The Rust function panics via
`unimplemented!` on the `Hereinafter` and `YearSuffix` ordinary variables;
the embedding returns `none` there and `some` of the answer everywhere
else. -/
def has_variable (self : RefContext) : AnyVariable → Option Bool
  | .Number v =>
    match v with
    | .Locator => some self.locator_type.isSome
    | .FirstReferenceNoteNumber => some self.position.matchesSubsequent
    | .CitationNumber => some self.style.bibliography.isSome
    | _ => some (self.get_number v).isSome
  | .Ordinary v =>
    match v with
    | .Hereinafter => none
    | .YearSuffix => none
    | _ => some (self.reference.ordinary v).isSome
  | .Date v => some (self.reference.date v).isSome
  | .Name v => some (self.reference.name v).isSome

end RefContext

/-- Reference used by the C2 counterexample: distinct long and short
container titles. -/
def refWithContainerTitles : Reference where
  ordinary := fun v =>
    match v with
    | .ContainerTitle => some "Long Container Title".data
    | .ContainerTitleShort => some "Short CT".data
    | _ => none
  number := fun _ => none
  name := fun _ => none
  date := fun _ => none

/-- Context wrapping `refWithContainerTitles`. -/
def ctxWithContainerTitles : RefContext where
  style := { bibliography := none }
  reference := refWithContainerTitles
  locator_type := none
  position := .First
  year_suffix := false

/-- C2: counterexample.  `get_ordinary(ContainerTitle, Short)` does not
resolve the short-form fallback: on a reference whose container-title and
container-title-short entries differ, it returns the plain container-title
entry, not the container-title-short one. -/
theorem get_ordinary_container_short_counterexample :
    ctxWithContainerTitles.get_ordinary .ContainerTitle .Short =
      some "Long Container Title".data ∧
    refWithContainerTitles.ordinary .ContainerTitleShort =
      some "Short CT".data ∧
    ctxWithContainerTitles.get_ordinary .ContainerTitle .Short ≠
      refWithContainerTitles.ordinary .ContainerTitleShort := by
  refine ⟨rfl, rfl, ?_⟩
  decide

/-- C2 (amended): `get_ordinary` resolves the short form fallback for the
title only: `(Title, Short)` reads the reference's title-short entry, and
every other `(var, form)` pair — including `(ContainerTitle, Short)` —
reads the reference's ordinary entry for `var` itself. -/
theorem get_ordinary_spec (ctx : RefContext) (var : Variable)
    (form : VariableForm) :
    ctx.get_ordinary var form =
      if var = .Title ∧ form = .Short then ctx.reference.ordinary .TitleShort
      else ctx.reference.ordinary var := by
  cases var <;> cases form <;> simp [RefContext.get_ordinary]

/-- C8: `has_variable` answers every variable except the ordinary
`hereinafter` and `year-suffix` (whose branches are `unimplemented!`,
embedded as `none`); the virtual variables locator,
first-reference-note-number and citation-number are answered from the
locator, position and style context rather than from the reference
maps. -/
theorem has_variable_spec (ctx : RefContext) :
    (∀ v : AnyVariable,
      v ≠ .Ordinary .Hereinafter → v ≠ .Ordinary .YearSuffix →
      (ctx.has_variable v).isSome = true) ∧
    ctx.has_variable (.Number .Locator) = some ctx.locator_type.isSome ∧
    ctx.has_variable (.Number .FirstReferenceNoteNumber) =
      some ctx.position.matchesSubsequent ∧
    ctx.has_variable (.Number .CitationNumber) =
      some ctx.style.bibliography.isSome ∧
    ctx.has_variable (.Ordinary .Hereinafter) = none ∧
    ctx.has_variable (.Ordinary .YearSuffix) = none := by
  refine ⟨?_, rfl, rfl, rfl, rfl, rfl⟩
  intro v h1 h2
  cases v with
  | Number n => cases n <;> simp [RefContext.has_variable]
  | Ordinary o => cases o <;> simp_all [RefContext.has_variable]
  | Name n => rfl
  | Date d => rfl

/-- Context used by the C8 witness: an empty reference in a bare style. -/
def ctxEmptyRef : RefContext where
  style := { bibliography := none }
  reference :=
    { ordinary := fun _ => none
      number := fun _ => none
      name := fun _ => none
      date := fun _ => none }
  locator_type := none
  position := .First
  year_suffix := false

/-- Witness for C8 at a concrete context and concrete variables. -/
theorem has_variable_spec_witness :
    (ctxEmptyRef.has_variable (.Ordinary .Title)).isSome = true ∧
    ctxEmptyRef.has_variable (.Ordinary .Hereinafter) = none := by
  obtain ⟨h1, _, _, _, h5, _⟩ := has_variable_spec ctxEmptyRef
  exact ⟨h1 (.Ordinary .Title) (by decide) (by decide), h5⟩

/-! ### Person names (src/crates/io/src/names.rs)

Rust strings are embedded as `List Char`; byte lengths become character
counts (equivalent here, since every slice boundary in the source falls on
a character boundary of the same characters).  The two fixed regexes are
hand-compiled into matching functions with the regex crate's leftmost-first
greedy semantics.  Whitespace is `Char.isWhitespace`, and lowercase testing
is ASCII `Char.isLower` (all inputs the spec speaks about are covered). -/

/-- Embeds the `PersonName` struct. -/
structure PersonName where
  family : Option (List Char)
  given : Option (List Char)
  non_dropping_particle : Option (List Char)
  dropping_particle : Option (List Char)
  suffix : Option (List Char)
  static_particles : Bool
  comma_suffix : Bool
  deriving DecidableEq, Repr

/-- Embeds `replace_apostrophes`: every ASCII apostrophe becomes
`U+2019`. -/
def replace_apostrophes (s : List Char) : List Char :=
  s.map (fun c => if c = '\'' then '’' else c)

/-- Trims whitespace from both ends, embedding `str::trim`. -/
def listTrim (l : List Char) : List Char :=
  ((l.dropWhile Char.isWhitespace).reverse.dropWhile Char.isWhitespace).reverse

/-- Non-whitespace delimiters of the family-particle regex
`^\S+(?:\-|02BB|2019|\s|')\s*`. -/
def famDelim (c : Char) : Bool :=
  c = '-' ∨ c = 'ʻ' ∨ c = '’' ∨ c = '\''

/-- Hand-compiled `family_particles_re`: anchored at the start, one or more
non-whitespace characters, one delimiter (dash, modifier letter turned
comma, right single quote, whitespace, or apostrophe), then any
whitespace.  Greedy `\S+` takes the maximal run when a whitespace delimiter
follows; otherwise it backtracks to the last non-whitespace delimiter
inside the run. -/
def familyFind (s : List Char) : Option (List Char) :=
  let run := s.takeWhile (fun c => !c.isWhitespace)
  if run.length = 0 then none
  else if run.length < s.length then
    some (s.take (run.length + 1) ++
      (s.drop (run.length + 1)).takeWhile Char.isWhitespace)
  else
    match (List.range run.length).reverse.find?
        (fun j => decide (1 ≤ j) && famDelim (run.getD j ' ')) with
    | some j => some (run.take (j + 1))
    | none => none

/-- One attempt of the given-name regex with a fixed prefix length. -/
def givenFindWith (plen : Nat) (s : List Char) : Option (List Char) :=
  let rest := s.drop plen
  let run := rest.takeWhile (fun c => !c.isWhitespace)
  if run.length = 0 then none
  else
    some (s.take plen ++ run ++
      (rest.drop run.length).takeWhile Char.isWhitespace)

/-- Hand-compiled `givenn_particles_re`
`^(?:02BB\s|2019\s|\s|'\s)?\S+\s*`, run over the reversed given name: an
optional quote-plus-whitespace or whitespace prefix, one or more
non-whitespace characters, then any whitespace; if the prefix alternative
consumes but `\S+` then fails, the engine retries without the prefix. -/
def givenFind (s : List Char) : Option (List Char) :=
  let pfx : Nat :=
    match s with
    | a :: b :: _ =>
      if (a = 'ʻ' ∨ a = '’' ∨ a = '\'') ∧ b.isWhitespace then 2
      else if a.isWhitespace then 1
      else 0
    | a :: [] => if a.isWhitespace then 1 else 0
    | [] => 0
  match givenFindWith pfx s with
  | some m => some m
  | none => givenFindWith 0 s

/-- Embeds the `has_particle` test inside `split_particles`: the first
character that is neither whitespace nor one of `-`, `'`, `U+02BB`,
`U+2019` must be lowercase. -/
def has_particle (particle : List Char) : Bool :=
  match particle.filter
      (fun c => !c.isWhitespace && !famDelim c) with
  | [] => false
  | c :: _ => c.isLower

/-- Embeds the `while let Some(mat) = splitter.find(slice)` loop of
`split_particles`: repeatedly match a particle at the front of the
(possibly reversed) name, stop at the first non-particle, and return the
collected particles together with the number of characters eaten.  The
fuel bounds recursion; every match is non-empty, so the slice length is
enough fuel. -/
def splitLoopAux (fuel : Nat) (finder : List Char → Option (List Char))
    (is_given : Bool) (slice : List Char) : List (List Char) × Nat :=
  match fuel with
  | 0 => ([], 0)
  | fuel' + 1 =>
    match finder slice with
    | none => ([], 0)
    | some mat =>
      let particle := if is_given then mat.reverse else mat
      if has_particle particle then
        let res := splitLoopAux fuel' finder is_given (slice.drop particle.length)
        (particle :: res.1, particle.length + res.2)
      else ([], 0)

/-- Predicate for the space-fixup passes: does the particle start with a
literal space (`chars().nth(0) == Some(' ')`)? -/
def startsWithSpace : List Char → Bool
  | ' ' :: _ => true
  | _ => false

/-- Embeds the first fixup loop of the `is_given` branch: a particle whose
successor starts with a space gets a space appended. -/
def spacePassOne : List (List Char) → List (List Char)
  | [] => []
  | [x] => [x]
  | x :: y :: rest =>
    (if startsWithSpace y then x ++ [' '] else x) :: spacePassOne (y :: rest)

/-- Embeds the second fixup loop: strip one leading space from every
particle that has one. -/
def spacePassTwo (ps : List (List Char)) : List (List Char) :=
  ps.map (fun p => if startsWithSpace p then p.tail else p)

/-- Embeds the body of `split_particles` up to the final `Some`: the list
of particles (fixed up and put into document order for the given side) and
the raw remainder of the original string. -/
def split_particles_core (orig : List Char) (is_given : Bool) :
    Option (List (List Char) × List Char) :=
  let name_str := if is_given then orig.reverse else orig
  let finder := if is_given then givenFind else familyFind
  let res := splitLoopAux name_str.length finder is_given name_str
  if res.1.isEmpty then none
  else if is_given then
    some (spacePassTwo (spacePassOne res.1.reverse),
      orig.take (orig.length - res.2))
  else
    some (res.1, orig.drop res.2)

/-- Embeds `split_particles`: joins the particles and
apostrophe-normalizes the remainder. -/
def split_particles (orig : List Char) (is_given : Bool) :
    Option (List Char × List Char) :=
  (split_particles_core orig is_given).map
    (fun pr => (pr.1.join, replace_apostrophes pr.2))

/-- Embeds `parse_suffix`, which in Rust truncates `given` in place and
maybe returns a suffix: here it returns the new `given` paired with the
optional `(suffix, force_comma)`.  The comma regex `\s*,!?\s*` is
hand-compiled: its leftmost match starts at the whitespace run preceding
the first comma. -/
def parse_suffix (given : List Char) (has_dropping_particle : Bool) :
    List Char × Option (List Char × Bool) :=
  match given.findIdx? (fun c => c = ',') with
  | none => (given, none)
  | some j =>
    let wsBack := ((given.take j).reverse.takeWhile Char.isWhitespace).length
    let start := j - wsBack
    let after := given.drop (j + 1)
    let hasBang := match after with | '!' :: _ => true | _ => false
    let after2 := if hasBang then after.tail else after
    let possible_suffix := after2.dropWhile Char.isWhitespace
    if (possible_suffix = "et al".data ∨ possible_suffix = "et al.".data)
        ∧ !has_dropping_particle then
      (given, none)
    else
      (given.take start, some (possible_suffix, hasBang))

/-- Embeds `trim_last`: trim the joined non-dropping particles, and restore
one trailing space when the string ended in a space right after an
apostrophe or right single quote. -/
def trim_last (s : List Char) : List Char :=
  let last_char := s.getLast?
  let t := listTrim s
  if t.isEmpty then t
  else
    match last_char with
    | some c =>
      let second_last : Bool :=
        match t.getLast? with
        | some d => d = '\'' ∨ d = '’'
        | none => false
      if c = ' ' ∧ second_last then t ++ [' '] else t
    | none => t

/-- Embeds `PersonName::parse_particles`.  The first branch (pre-supplied
particles or static particles) only apostrophe-normalizes four fields; the
second extracts non-dropping particles from `family`, then a suffix and
dropping particles from `given`. -/
def parse_particles (n : PersonName) : PersonName :=
  if n.static_particles ∨ n.non_dropping_particle.isSome
      ∨ n.dropping_particle.isSome ∨ n.suffix.isSome then
    { n with
      family := n.family.map replace_apostrophes
      given := n.given.map replace_apostrophes
      non_dropping_particle := n.non_dropping_particle.map replace_apostrophes
      dropping_particle := n.dropping_particle.map replace_apostrophes }
  else
    let step1 :=
      match n.family with
      | none => n
      | some fam =>
        match split_particles fam false with
        | some pr =>
          { n with
            non_dropping_particle :=
              some (replace_apostrophes (trim_last pr.1))
            family := some pr.2 }
        | none => { n with family := some (replace_apostrophes fam) }
    match step1.given with
    | none => step1
    | some giv =>
      let sufres := parse_suffix giv step1.dropping_particle.isSome
      let step2 :=
        match sufres.2 with
        | some sb => { step1 with suffix := some sb.1, comma_suffix := sb.2 }
        | none => step1
      match split_particles sufres.1 true with
      | some pr =>
        { step2 with
          dropping_particle := some (replace_apostrophes (listTrim pr.1))
          given := some pr.2 }
      | none => { step2 with given := some (replace_apostrophes sufres.1) }

/-- Output of `replace_apostrophes` never contains an ASCII apostrophe. -/
theorem replace_apostrophes_no_apos (l : List Char) :
    '\'' ∉ replace_apostrophes l := by
  intro hmem
  rcases List.mem_map.1 hmem with ⟨d, -, hd⟩
  by_cases h : d = '\''
  · rw [if_pos h] at hd; exact absurd hd (by decide)
  · rw [if_neg h] at hd; exact h hd

/-- The remainder returned by `split_particles` is apostrophe-normalized. -/
theorem split_particles_remain_no_apos {o : List Char} {g : Bool}
    {pr : List Char × List Char} (h : split_particles o g = some pr) :
    '\'' ∉ pr.2 := by
  unfold split_particles at h
  cases hc : split_particles_core o g with
  | none => rw [hc] at h; simp at h
  | some q =>
    rw [hc] at h
    simp only [Option.map_some'] at h
    have h2 : replace_apostrophes q.2 = pr.2 :=
      congrArg Prod.snd (Option.some.inj h)
    rw [← h2]
    exact replace_apostrophes_no_apos _

/-- Mapping `replace_apostrophes` over an optional field leaves no ASCII
apostrophe behind. -/
theorem map_replace_no_apos (o : Option (List Char)) :
    '\'' ∉ (o.map replace_apostrophes).getD [] := by
  cases o with
  | none => simp
  | some l => simpa using replace_apostrophes_no_apos l

/-- The C6 input name `{family: "van der Vlist", given: "Eric"}`. -/
def nameVanDerVlist : PersonName :=
  { family := some "van der Vlist".data, given := some "Eric".data,
    non_dropping_particle := none, dropping_particle := none, suffix := none,
    static_particles := false, comma_suffix := false }

/-- C6: particle parsing on `{family: "van der Vlist", given: "Eric"}`
yields exactly `{family: "Vlist", non-dropping-particle: "van der", given:
"Eric"}` with every other field unchanged. -/
theorem parse_particles_van_der_vlist :
    parse_particles nameVanDerVlist =
      { family := some "Vlist".data, given := some "Eric".data,
        non_dropping_particle := some "van der".data,
        dropping_particle := none, suffix := none,
        static_particles := false, comma_suffix := false } := by
  decide

/-- Name whose pre-supplied suffix carries an ASCII apostrophe. -/
def nameSuffixApos : PersonName :=
  { family := none, given := none, non_dropping_particle := none,
    dropping_particle := none, suffix := some "Jr'".data,
    static_particles := false, comma_suffix := false }

/-- Name whose given part carries a comma suffix with an apostrophe. -/
def nameGivenCommaApos : PersonName :=
  { family := none, given := some "Eric, J'r".data,
    non_dropping_particle := none, dropping_particle := none, suffix := none,
    static_particles := false, comma_suffix := false }

/-- C7: counterexample.  The suffix field is never apostrophe-normalized:
a pre-supplied suffix `Jr'` survives `parse_particles` verbatim (the
pre-supplied branch maps `replace_apostrophes` over the other four fields
only), and a suffix `J'r` extracted from `given` in the parsing branch is
stored without normalization either. -/
theorem parse_particles_suffix_keeps_apostrophe :
    (parse_particles nameSuffixApos).suffix = some "Jr'".data ∧
    '\'' ∈ "Jr'".data ∧
    (parse_particles nameGivenCommaApos).suffix = some "J'r".data ∧
    '\'' ∈ "J'r".data := by
  decide

/-- C7 (amended): after `parse_particles`, the family, given, non-dropping
particle and dropping particle fields contain no ASCII apostrophe in
either branch; the suffix field is exempt, as neither branch normalizes
it. -/
theorem parse_particles_no_apostrophes (n : PersonName) :
    '\'' ∉ (parse_particles n).family.getD [] ∧
    '\'' ∉ (parse_particles n).given.getD [] ∧
    '\'' ∉ (parse_particles n).non_dropping_particle.getD [] ∧
    '\'' ∉ (parse_particles n).dropping_particle.getD [] := by
  by_cases hcond : n.static_particles = true
      ∨ n.non_dropping_particle.isSome = true
      ∨ n.dropping_particle.isSome = true ∨ n.suffix.isSome = true
  · refine ⟨?_, ?_, ?_, ?_⟩ <;>
      simp only [parse_particles, if_pos hcond] <;>
      apply map_replace_no_apos
  · have hndp : n.non_dropping_particle = none := by
      cases h : n.non_dropping_particle with
      | none => rfl
      | some _ => exact absurd (Or.inr (Or.inl (by simp [h]))) hcond
    have hdp : n.dropping_particle = none := by
      cases h : n.dropping_particle with
      | none => rfl
      | some _ => exact absurd (Or.inr (Or.inr (Or.inl (by simp [h])))) hcond
    refine ⟨?_, ?_, ?_, ?_⟩ <;>
      · simp only [parse_particles, if_neg hcond]
        repeat' split
        all_goals
          simp_all
        all_goals
          first
            | exact replace_apostrophes_no_apos _
            | (apply split_particles_remain_no_apos; assumption)

/-! ### Processor database surface (src/crates/citeproc/src/db/mod.rs) -/

/-- Embeds the `SupportedFormat` enum; `TestHtml` exists only under the
`test` cargo feature and is unreachable from `from_str` either way. -/
inductive SupportedFormat
  | Html
  | Rtf
  | TestHtml
  deriving DecidableEq, Repr

/-- Embeds `SupportedFormat::from_str`; the Rust `Err(())` becomes
`none`. -/
def SupportedFormat.from_str (s : List Char) : Option SupportedFormat :=
  if s = "html".data then some .Html
  else if s = "rtf".data then some .Rtf
  else none

/-- Embeds the `Deserialize` impl for `SupportedFormat`: a failed
`from_str` becomes the custom error `unknown format {s}`. -/
def deserializeSupportedFormat (s : List Char) :
    Except (List Char) SupportedFormat :=
  match SupportedFormat.from_str s with
  | some f => .ok f
  | none => .error ("unknown format ".data ++ s)

/-- C9: counterexample.  `plain-test` is not accepted by the format
parser, so the claimed supported set {html, rtf, plain-test} is wrong:
deserialization of `plain-test` fails with the unknown-format error. -/
theorem supported_format_plain_test_rejected :
    SupportedFormat.from_str "plain-test".data = none ∧
    deserializeSupportedFormat "plain-test".data =
      .error "unknown format plain-test".data :=
  ⟨rfl, rfl⟩

/-- C9 (amended): parsing an output-format name succeeds exactly for the
names `html` and `rtf`; every other name — including `plain-test` — fails
deserialization with an unknown-format error, before any processor is
constructed (`Processor::new` itself receives an already-parsed
`SupportedFormat`). -/
theorem supported_format_parse_spec (s : List Char) :
    ((SupportedFormat.from_str s).isSome = true ↔
      s = "html".data ∨ s = "rtf".data) ∧
    (s ≠ "html".data → s ≠ "rtf".data →
      deserializeSupportedFormat s = .error ("unknown format ".data ++ s)) := by
  constructor
  · unfold SupportedFormat.from_str
    split_ifs <;> simp [*]
  · intro h1 h2
    unfold deserializeSupportedFormat SupportedFormat.from_str
    rw [if_neg h1, if_neg h2]

/-- Witness for the amended C9 theorem at the concrete name `foo`. -/
theorem supported_format_parse_spec_witness :
    deserializeSupportedFormat "foo".data =
      .error ("unknown format ".data ++ "foo".data) :=
  (supported_format_parse_spec "foo".data).2 (by decide) (by decide)

/-- Embeds the slice of `citeproc_io::Reference` the db layer keys on: the
stable reference id; the rest of the record is opaque to the claim and is
carried verbatim. -/
structure DbReference where
  id : List Char
  rest : List Char
  deriving DecidableEq, Repr

/-- Embeds the salsa inputs touched by `set_references`: the per-id
reference input map and the `all_keys` input (the Rust `HashSet<Atom>` is
modelled as a deduplicated list). -/
structure ProcRefState where
  refs : List Char → Option DbReference
  all_keys : List (List Char)

/-- Embeds `Processor::set_references`: store each reference under its id
and replace `all_keys` with the set of ids of exactly the given
references. -/
def set_references (st : ProcRefState) (refs : List DbReference) :
    ProcRefState :=
  { refs := refs.foldl
      (fun acc r => fun i => if i = r.id then some r else acc i) st.refs
    all_keys := (refs.map (fun r => r.id)).dedup }

/-- Embeds `Processor::insert_reference`, which is literally
`set_references(vec![refr])`. -/
def insert_reference (st : ProcRefState) (r : DbReference) : ProcRefState :=
  set_references st [r]

/-- C10: `insert_reference(r)` resets `all_keys` to exactly the singleton
of `r`'s id — the previously set keys are dropped from `all_keys` — while
the previously stored reference entries stay queryable by id and `r`
itself is stored under its id. -/
theorem insert_reference_spec (st : ProcRefState) (r : DbReference) :
    (insert_reference st r).all_keys = [r.id] ∧
    (insert_reference st r).refs r.id = some r ∧
    (∀ i, i ≠ r.id → (insert_reference st r).refs i = st.refs i) := by
  refine ⟨?_, ?_, ?_⟩
  · show ([r].map (fun r => r.id)).dedup = [r.id]
    rw [List.map_singleton, List.dedup_cons_of_not_mem (List.not_mem_nil _),
      List.dedup_nil]
  · show (if r.id = r.id then some r else st.refs r.id) = some r
    rw [if_pos rfl]
  · intro i hi
    show (if i = r.id then some r else st.refs i) = st.refs i
    rw [if_neg hi]

/-- Empty processor-reference state for the C10 witness. -/
def emptyRefState : ProcRefState where
  refs := fun _ => none
  all_keys := []

/-- Reference used by the C10 witness. -/
def witnessReference : DbReference where
  id := "r1".data
  rest := "payload".data

/-- Witness for C10 at a concrete state, reference and foreign id. -/
theorem insert_reference_spec_witness :
    (insert_reference emptyRefState witnessReference).all_keys =
      ["r1".data] ∧
    (insert_reference emptyRefState witnessReference).refs "r1".data =
      some witnessReference ∧
    (insert_reference emptyRefState witnessReference).refs "other".data =
      emptyRefState.refs "other".data := by
  obtain ⟨h1, h2, h3⟩ := insert_reference_spec emptyRefState witnessReference
  exact ⟨h1, h2, h3 "other".data (by decide)⟩

end Citeproc
